import Mathlib

/-!
Shallow embedding of `packages/apollo-language-server/src/project/base.ts`
(the `GraphQLProject` abstract class): the incremental document index,
the readiness gate, and the debounced revalidation scheduler.

The single-threaded JavaScript execution model is embedded as an explicit
state machine: the mutable fields of a `GraphQLProject` instance become the
fields of `ProjState`, each method becomes a pure state transformer, and
the asynchronous continuations (the `readyPromise` continuations installed
by the constructor, and the `setTimeout` callback scheduled by
`invalidate`) become events of an event type `Event` consumed by a step
function.  External collaborators that are not part of this file
(`readFileSync`, `extractGraphQLDocuments`, `Uri`, `extname`) are passed in
as parameters carrying their outcome, so every definition below is a
faithful translation of the control flow of `base.ts` itself.
-/

namespace ApolloProject

/-- Type `DocumentUri` (base.ts line 32): an opaque string key for a file. -/
abbrev DocumentUri := String

/-- A position in a text document (from `vscode-languageserver`): line and
character, both zero-based naturals. -/
structure Position where
  line : Nat
  character : Nat
deriving DecidableEq

/-- A text range: start and stop positions. Modelled from the spec: the
spec says an embedded document exposes "the text range it occupies within
the file, used to test does-this-document-contain-this-position". -/
structure Range where
  start : Position
  stop : Position
deriving DecidableEq

/-- Lexicographic order on positions: `a` is at or before `b`. -/
def positionLe (a b : Position) : Bool :=
  a.line < b.line || (a.line = b.line && a.character ≤ b.character)

/-- Modelled from the spec: `GraphQLDocument` lives in
`packages/apollo-language-server/src/document.ts`, which is not part of the
sources given here.  The spec describes a document as opaque to the core
except for the text range it occupies, so the model keeps exactly that. -/
structure GraphQLDocument where
  range : Range
deriving DecidableEq

/-- Modelled from the spec: `GraphQLDocument.containsPosition(position)`
tests whether the document's range contains the position. -/
def GraphQLDocument.containsPosition (d : GraphQLDocument) (p : Position) : Bool :=
  positionLe d.range.start p && positionLe p d.range.stop

/-- Embedding of `fileAssociations` (base.ts lines 34-40): the fixed extension-to-language
association table.  A missing key in the JavaScript object literal reads as
`undefined`, embedded here as `none`. -/
def fileAssociations (extension : String) : Option String :=
  if extension = ".graphql" then some "graphql"
  else if extension = ".js" then some "javascript"
  else if extension = ".ts" then some "typescript"
  else if extension = ".jsx" then some "javascriptreact"
  else if extension = ".tsx" then some "typescriptreact"
  else none

/-- Lookup in the document index.  `documentsByFile` is a JavaScript `Map`;
it is embedded as an association list in insertion order with unique keys,
and `mapGet` is `Map.prototype.get` (`undefined`, i.e. `none`, when the key
is absent). -/
def mapGet (key : DocumentUri) : List (DocumentUri × List GraphQLDocument) → Option (List GraphQLDocument)
  | [] => none
  | (k, v) :: rest => if k = key then some v else mapGet key rest

/-- Operation `Map.prototype.set`: replaces the value of an existing key in place
(keeping its position in insertion order) or appends a new entry. -/
def mapSet (key : DocumentUri) (value : List GraphQLDocument) :
    List (DocumentUri × List GraphQLDocument) → List (DocumentUri × List GraphQLDocument)
  | [] => [(key, value)]
  | (k, v) :: rest =>
    if k = key then (key, value) :: rest else (k, v) :: mapSet key value rest

/-- Operation `Map.prototype.delete`: removes the entry with the given key, if any. -/
def mapDelete (key : DocumentUri) (m : List (DocumentUri × List GraphQLDocument)) :
    List (DocumentUri × List GraphQLDocument) :=
  m.filter (fun entry => entry.1 != key)

/-- The mutable state of one `GraphQLProject` instance, together with the
observable effects needed to state the properties:

* `isReady`, `needsValidation`, `documentsByFile` are the instance fields
  `_isReady` (line 52), `needsValidation` (line 56) and `documentsByFile`
  (line 58) of `base.ts`;
* `initSettled` records that the `Promise.all(this.initialize())` promise
  has settled (a promise settles at most once, so both constructor
  continuations are guarded by it);
* `whenReadySettled` is the settlement state of `readyPromise` (the value
  of the `whenReady` getter, lines 117-119): `none` while pending,
  `some true` once fulfilled, `some false` once rejected;
* `scheduledTimers` counts `setTimeout` callbacks scheduled by
  `invalidate` and not yet run;
* `validateRuns` counts invocations of the abstract `validate()` hook;
* `errorsLogged` counts `console.error` calls, `errorsShown` counts
  `loadingHandler.showError` calls;
* `hasDiagnosticsHandler` is whether `_onDiagnostics` is set, and
  `diagnosticsLog` records the uris of published `{uri, diagnostics: []}`
  clear notifications, in publication order. -/
structure ProjState where
  isReady : Bool
  needsValidation : Bool
  initSettled : Bool
  whenReadySettled : Option Bool
  scheduledTimers : Nat
  validateRuns : Nat
  errorsLogged : Nat
  errorsShown : Nat
  hasDiagnosticsHandler : Bool
  documentsByFile : List (DocumentUri × List GraphQLDocument)
  diagnosticsLog : List DocumentUri
deriving DecidableEq

/-- The state right after the synchronous part of the constructor
(base.ts lines 64-98) has run: `_isReady = false`, `needsValidation =
false`, an empty document index, and the `readyPromise` still pending. -/
def initialState : ProjState :=
  { isReady := false
    needsValidation := false
    initSettled := false
    whenReadySettled := none
    scheduledTimers := 0
    validateRuns := 0
    errorsLogged := 0
    errorsShown := 0
    hasDiagnosticsHandler := false
    documentsByFile := []
    diagnosticsLog := [] }

/-- Embedding of `GraphQLProject.invalidate` (base.ts lines 197-204):

    if (!this.needsValidation && this.isReady) \x7b
      setTimeout(() => \x7b this.validateIfNeeded(); \x7d, 0);
      this.needsValidation = true;
    \x7d
-/
def invalidate (s : ProjState) : ProjState :=
  if !s.needsValidation && s.isReady then
    { s with scheduledTimers := s.scheduledTimers + 1, needsValidation := true }
  else s

/-- Embedding of `GraphQLProject.validateIfNeeded` (base.ts lines 206-212).  The
abstract `validate()` hook is external; `validateThrows` is the outcome of
this particular invocation.  When the hook throws, the exception leaves
`validateIfNeeded` before the `this.needsValidation = false` statement on
line 211 runs, so the flag is not cleared in that case. -/
def validateIfNeeded (validateThrows : Bool) (s : ProjState) : ProjState :=
  if !s.needsValidation || !s.isReady then s
  else
    let afterValidate := { s with validateRuns := s.validateRuns + 1 }
    if validateThrows then afterValidate
    else { afterValidate with needsValidation := false }

/-- One scheduled `setTimeout` turn firing: it consumes one pending timer
and runs the callback `() => this.validateIfNeeded()` from base.ts line
199-201.  With no pending timer there is no turn to run. -/
def timerFire (validateThrows : Bool) (s : ProjState) : ProjState :=
  if s.scheduledTimers = 0 then s
  else validateIfNeeded validateThrows { s with scheduledTimers := s.scheduledTimers - 1 }

/-- The fulfilled continuation of `Promise.all(this.initialize())`
(base.ts lines 86-89): sets `_isReady = true`, calls `invalidate()`, and
then `readyPromise` (the `.then(...).catch(...)` chain) fulfills.  A
promise settles at most once, so the continuation only runs when the
promise had not settled before. -/
def initResolveCont (s : ProjState) : ProjState :=
  if s.initSettled then s
  else
    let afterThen := invalidate { s with isReady := true, initSettled := true }
    { afterThen with whenReadySettled := some true }

/-- The rejected continuation of `Promise.all(this.initialize())`
(base.ts lines 90-97): `console.error(error)`, then
`loadingHandler.showError(...)`; the `catch` handler returns normally, so
`readyPromise` fulfills.  `_isReady` is left untouched. -/
def initRejectCont (s : ProjState) : ProjState :=
  if s.initSettled then s
  else
    { s with initSettled := true
             errorsLogged := s.errorsLogged + 1
             errorsShown := s.errorsShown + 1
             whenReadySettled := some true }

/-- Embedding of `GraphQLProject.removeGraphQLDocumentsFor` (base.ts lines 185-195):
if the index has the uri, delete it, publish `{uri, diagnostics: []}` when
a diagnostics handler is registered, and call `invalidate()`; otherwise do
nothing. -/
def removeGraphQLDocumentsFor (uri : DocumentUri) (s : ProjState) : ProjState :=
  if (mapGet uri s.documentsByFile).isSome then
    let afterDelete := { s with documentsByFile := mapDelete uri s.documentsByFile }
    let afterPublish :=
      if afterDelete.hasDiagnosticsHandler then
        { afterDelete with diagnosticsLog := afterDelete.diagnosticsLog ++ [uri] }
      else afterDelete
    invalidate afterPublish
  else s

/-- Embedding of `GraphQLProject.documentDidChange` (base.ts lines 175-183).
`extractGraphQLDocuments` is external (src/document.ts); its result is the
parameter `documents`.  The JavaScript test `if (documents)` is truthiness
of a `GraphQLDocument[] | null` value: `null` is falsy and any array —
including an empty one — is truthy, so `some ds` always takes the `set`
branch. -/
def documentDidChange (uri : DocumentUri) (documents : Option (List GraphQLDocument))
    (s : ProjState) : ProjState :=
  match documents with
  | some ds => invalidate { s with documentsByFile := mapSet uri ds s.documentsByFile }
  | none => removeGraphQLDocumentsFor uri s

/-- Embedding of `GraphQLProject.fileWasDeleted` (base.ts lines 171-173). -/
def fileWasDeleted (uri : DocumentUri) (s : ProjState) : ProjState :=
  removeGraphQLDocumentsFor uri s

/-- Embedding of `GraphQLProject.fileDidChange` (base.ts lines 154-169).  External
calls are passed as parameters: `extension` is
`extname(Uri.parse(uri).fsPath)`; `readResult` is the outcome of
`readFileSync(filePath, "utf8")`, with `none` meaning it threw, in which
case the error is logged (`console.error`) and nothing else happens; and
`extractOf contents` is the `extractGraphQLDocuments` result for the
`TextDocument` created from the contents.  The try/catch makes the method
total: no exception escapes to the caller. -/
def fileDidChange (uri : DocumentUri) (extension : String) (readResult : Option String)
    (extractOf : String → Option (List GraphQLDocument)) (s : ProjState) : ProjState :=
  match fileAssociations extension with
  | none => s
  | some _languageId =>
    match readResult with
    | none => { s with errorsLogged := s.errorsLogged + 1 }
    | some contents => documentDidChange uri (extractOf contents) s

/-- Embedding of `GraphQLProject.documentAt` (base.ts lines 228-236). -/
def documentAt (uri : DocumentUri) (position : Position) (s : ProjState) :
    Option GraphQLDocument :=
  match mapGet uri s.documentsByFile with
  | none => none
  | some queryDocuments =>
    queryDocuments.find? (fun document => document.containsPosition position)

/-- Embedding of `GraphQLProject.scanAllIncludedFiles` (base.ts lines 137-152): iterate
the file set's enumeration; for each path compute its uri
(`Uri.file(filePath).toString()`, the external parameter `uriOf`); skip it
when `documentsByFile.has(uri)`, otherwise call `fileDidChange(uri)`.  The
per-file external outcomes are `extOf` (the extension of the path),
`readOf` (the read outcome) and `extractOf` (the extraction outcome per
contents).  The second component of the result is instrumentation: the
uris for which `fileDidChange` was invoked, in invocation order. -/
def scanAllIncludedFiles (uriOf extOf : String → String)
    (readOf : String → Option String)
    (extractOf : String → String → Option (List GraphQLDocument))
    (files : List String) (s : ProjState) : ProjState × List DocumentUri :=
  match files with
  | [] => (s, [])
  | filePath :: rest =>
    let uri := uriOf filePath
    if (mapGet uri s.documentsByFile).isSome then
      scanAllIncludedFiles uriOf extOf readOf extractOf rest s
    else
      let afterChange := fileDidChange uri (extOf filePath) (readOf filePath)
        (extractOf filePath) s
      let p := scanAllIncludedFiles uriOf extOf readOf extractOf rest afterChange
      (p.1, uri :: p.2)

/-- The asynchronous events that can be interleaved with method calls on a
project instance in the single-threaded JavaScript model.  Method calls on
the instance are events too; external outcomes ride on the event. -/
inductive Event where
  | invalidate
  | initResolve
  | initReject
  | timerFire (validateThrows : Bool)
  | docChange (uri : DocumentUri) (documents : Option (List GraphQLDocument))
  | fileChange (uri : DocumentUri) (extension : String) (readResult : Option String)
      (extractOf : String → Option (List GraphQLDocument))
  | fileDelete (uri : DocumentUri)
  | registerDiagnostics

/-- One step of the machine. -/
def step (e : Event) (s : ProjState) : ProjState :=
  match e with
  | .invalidate => invalidate s
  | .initResolve => initResolveCont s
  | .initReject => initRejectCont s
  | .timerFire validateThrows => timerFire validateThrows s
  | .docChange uri documents => documentDidChange uri documents s
  | .fileChange uri extension readResult extractOf =>
      fileDidChange uri extension readResult extractOf s
  | .fileDelete uri => fileWasDeleted uri s
  | .registerDiagnostics => { s with hasDiagnosticsHandler := true }

/-- Run a list of events in order. -/
def runEvents : List Event → ProjState → ProjState
  | [], s => s
  | e :: tr, s => runEvents tr (step e s)

/-- The Document Index invariant claimed by the spec: every key present in
`documentsByFile` maps to a non-empty list of documents. -/
def indexInvariant (s : ProjState) : Prop :=
  ∀ uri ds, mapGet uri s.documentsByFile = some ds → ds ≠ []

/-- Trace shape for claim C1: one synchronous burst straddling readiness —
`k` calls to `invalidate()` before initialization resolves, then the
constructor continuation (which flips readiness and itself calls
`invalidate()`), then `m` more calls in the same burst, and finally the
one scheduled timer turn. -/
def burstAroundInit (k m : Nat) : List Event :=
  List.replicate k Event.invalidate ++
    Event.initResolve :: (List.replicate m Event.invalidate ++ [Event.timerFire false])

/-- Trace shape for claim C1: one synchronous burst of `n` calls to
`invalidate()` issued while ready, followed by the scheduled timer turn. -/
def burstWhenReady (n : Nat) : List Event :=
  List.replicate n Event.invalidate ++ [Event.timerFire false]

/-! ### Frame lemmas: which fields each transformer leaves untouched -/

@[simp]
theorem invalidate_isReady (s : ProjState) : (invalidate s).isReady = s.isReady := by
  unfold invalidate; split <;> rfl

@[simp]
theorem invalidate_initSettled (s : ProjState) :
    (invalidate s).initSettled = s.initSettled := by
  unfold invalidate; split <;> rfl

@[simp]
theorem invalidate_whenReadySettled (s : ProjState) :
    (invalidate s).whenReadySettled = s.whenReadySettled := by
  unfold invalidate; split <;> rfl

@[simp]
theorem invalidate_documentsByFile (s : ProjState) :
    (invalidate s).documentsByFile = s.documentsByFile := by
  unfold invalidate; split <;> rfl

@[simp]
theorem invalidate_diagnosticsLog (s : ProjState) :
    (invalidate s).diagnosticsLog = s.diagnosticsLog := by
  unfold invalidate; split <;> rfl

@[simp]
theorem invalidate_validateRuns (s : ProjState) :
    (invalidate s).validateRuns = s.validateRuns := by
  unfold invalidate; split <;> rfl

@[simp]
theorem invalidate_errorsLogged (s : ProjState) :
    (invalidate s).errorsLogged = s.errorsLogged := by
  unfold invalidate; split <;> rfl

@[simp]
theorem invalidate_errorsShown (s : ProjState) :
    (invalidate s).errorsShown = s.errorsShown := by
  unfold invalidate; split <;> rfl

@[simp]
theorem invalidate_hasDiagnosticsHandler (s : ProjState) :
    (invalidate s).hasDiagnosticsHandler = s.hasDiagnosticsHandler := by
  unfold invalidate; split <;> rfl

@[simp]
theorem validateIfNeeded_isReady (t : Bool) (s : ProjState) :
    (validateIfNeeded t s).isReady = s.isReady := by
  unfold validateIfNeeded; split
  · rfl
  · split <;> rfl

@[simp]
theorem validateIfNeeded_initSettled (t : Bool) (s : ProjState) :
    (validateIfNeeded t s).initSettled = s.initSettled := by
  unfold validateIfNeeded; split
  · rfl
  · split <;> rfl

@[simp]
theorem validateIfNeeded_whenReadySettled (t : Bool) (s : ProjState) :
    (validateIfNeeded t s).whenReadySettled = s.whenReadySettled := by
  unfold validateIfNeeded; split
  · rfl
  · split <;> rfl

@[simp]
theorem validateIfNeeded_documentsByFile (t : Bool) (s : ProjState) :
    (validateIfNeeded t s).documentsByFile = s.documentsByFile := by
  unfold validateIfNeeded; split
  · rfl
  · split <;> rfl

@[simp]
theorem validateIfNeeded_diagnosticsLog (t : Bool) (s : ProjState) :
    (validateIfNeeded t s).diagnosticsLog = s.diagnosticsLog := by
  unfold validateIfNeeded; split
  · rfl
  · split <;> rfl

@[simp]
theorem validateIfNeeded_scheduledTimers (t : Bool) (s : ProjState) :
    (validateIfNeeded t s).scheduledTimers = s.scheduledTimers := by
  unfold validateIfNeeded; split
  · rfl
  · split <;> rfl

@[simp]
theorem timerFire_isReady (t : Bool) (s : ProjState) :
    (timerFire t s).isReady = s.isReady := by
  unfold timerFire; split <;> simp

@[simp]
theorem timerFire_initSettled (t : Bool) (s : ProjState) :
    (timerFire t s).initSettled = s.initSettled := by
  unfold timerFire; split <;> simp

@[simp]
theorem timerFire_whenReadySettled (t : Bool) (s : ProjState) :
    (timerFire t s).whenReadySettled = s.whenReadySettled := by
  unfold timerFire; split <;> simp

@[simp]
theorem removeGraphQLDocumentsFor_isReady (uri : DocumentUri) (s : ProjState) :
    (removeGraphQLDocumentsFor uri s).isReady = s.isReady := by
  unfold removeGraphQLDocumentsFor; split
  · dsimp only; split <;> simp
  · rfl

@[simp]
theorem removeGraphQLDocumentsFor_initSettled (uri : DocumentUri) (s : ProjState) :
    (removeGraphQLDocumentsFor uri s).initSettled = s.initSettled := by
  unfold removeGraphQLDocumentsFor; split
  · dsimp only; split <;> simp
  · rfl

@[simp]
theorem removeGraphQLDocumentsFor_whenReadySettled (uri : DocumentUri) (s : ProjState) :
    (removeGraphQLDocumentsFor uri s).whenReadySettled = s.whenReadySettled := by
  unfold removeGraphQLDocumentsFor; split
  · dsimp only; split <;> simp
  · rfl

@[simp]
theorem documentDidChange_isReady (uri : DocumentUri)
    (documents : Option (List GraphQLDocument)) (s : ProjState) :
    (documentDidChange uri documents s).isReady = s.isReady := by
  unfold documentDidChange; cases documents <;> simp

@[simp]
theorem documentDidChange_initSettled (uri : DocumentUri)
    (documents : Option (List GraphQLDocument)) (s : ProjState) :
    (documentDidChange uri documents s).initSettled = s.initSettled := by
  unfold documentDidChange; cases documents <;> simp

@[simp]
theorem documentDidChange_whenReadySettled (uri : DocumentUri)
    (documents : Option (List GraphQLDocument)) (s : ProjState) :
    (documentDidChange uri documents s).whenReadySettled = s.whenReadySettled := by
  unfold documentDidChange; cases documents <;> simp

@[simp]
theorem fileDidChange_isReady (uri : DocumentUri) (extension : String)
    (readResult : Option String) (extractOf : String → Option (List GraphQLDocument))
    (s : ProjState) :
    (fileDidChange uri extension readResult extractOf s).isReady = s.isReady := by
  unfold fileDidChange
  cases fileAssociations extension <;> try rfl
  cases readResult <;> simp

@[simp]
theorem fileDidChange_initSettled (uri : DocumentUri) (extension : String)
    (readResult : Option String) (extractOf : String → Option (List GraphQLDocument))
    (s : ProjState) :
    (fileDidChange uri extension readResult extractOf s).initSettled = s.initSettled := by
  unfold fileDidChange
  cases fileAssociations extension <;> try rfl
  cases readResult <;> simp

@[simp]
theorem fileDidChange_whenReadySettled (uri : DocumentUri) (extension : String)
    (readResult : Option String) (extractOf : String → Option (List GraphQLDocument))
    (s : ProjState) :
    (fileDidChange uri extension readResult extractOf s).whenReadySettled =
      s.whenReadySettled := by
  unfold fileDidChange
  cases fileAssociations extension <;> try rfl
  cases readResult <;> simp

/-! ### Association-list lemmas for the document index -/

theorem mapGet_mapSet_self (key : DocumentUri) (value : List GraphQLDocument)
    (m : List (DocumentUri × List GraphQLDocument)) :
    mapGet key (mapSet key value m) = some value := by
  induction m with
  | nil => simp [mapGet, mapSet]
  | cons entry rest ih =>
    obtain ⟨k, v⟩ := entry
    by_cases hk : k = key
    · simp [mapGet, mapSet, hk]
    · simp [mapGet, mapSet, hk, ih]

theorem mapGet_mapSet_ne (key other : DocumentUri) (value : List GraphQLDocument)
    (m : List (DocumentUri × List GraphQLDocument)) (h : other ≠ key) :
    mapGet other (mapSet key value m) = mapGet other m := by
  have h' : key ≠ other := Ne.symm h
  induction m with
  | nil => simp [mapGet, mapSet, h']
  | cons entry rest ih =>
    obtain ⟨k, v⟩ := entry
    by_cases hk : k = key
    · subst hk
      simp [mapGet, mapSet, h']
    · simp [mapGet, mapSet, hk, ih]

theorem mapGet_mapDelete_self (key : DocumentUri)
    (m : List (DocumentUri × List GraphQLDocument)) :
    mapGet key (mapDelete key m) = none := by
  induction m with
  | nil => simp [mapGet, mapDelete]
  | cons entry rest ih =>
    obtain ⟨k, v⟩ := entry
    by_cases hk : k = key
    · simpa [mapDelete, List.filter_cons, hk] using ih
    · simpa [mapDelete, List.filter_cons, bne_iff_ne, hk, mapGet] using ih

theorem mapGet_mapDelete_ne (key other : DocumentUri)
    (m : List (DocumentUri × List GraphQLDocument)) (h : other ≠ key) :
    mapGet other (mapDelete key m) = mapGet other m := by
  induction m with
  | nil => simp [mapGet, mapDelete]
  | cons entry rest ih =>
    obtain ⟨k, v⟩ := entry
    by_cases hk : k = key
    · subst hk
      have hdrop : mapDelete k ((k, v) :: rest) = mapDelete k rest := by
        simp [mapDelete, List.filter_cons]
      have hr : mapGet other ((k, v) :: rest) = mapGet other rest := by
        simp [mapGet, Ne.symm h]
      rw [hdrop, ih, hr]
    · have hkeep : mapDelete key ((k, v) :: rest) = (k, v) :: mapDelete key rest := by
        simp [mapDelete, List.filter_cons, bne_iff_ne, hk]
      rw [hkeep]
      by_cases ho : k = other
      · simp [mapGet, ho]
      · simp [mapGet, ho, ih]

/-! ### Behavior of the scheduler primitives -/

theorem invalidate_of_not_ready (s : ProjState) (h : s.isReady = false) :
    invalidate s = s := by
  unfold invalidate
  simp [h]

theorem invalidate_of_pending (s : ProjState) (h : s.needsValidation = true) :
    invalidate s = s := by
  unfold invalidate
  simp [h]

theorem invalidate_of_quiescent (s : ProjState) (hready : s.isReady = true)
    (hflag : s.needsValidation = false) :
    invalidate s =
      { s with scheduledTimers := s.scheduledTimers + 1, needsValidation := true } := by
  unfold invalidate
  simp [hready, hflag]

theorem removeGraphQLDocumentsFor_of_absent (uri : DocumentUri) (s : ProjState)
    (h : mapGet uri s.documentsByFile = none) :
    removeGraphQLDocumentsFor uri s = s := by
  unfold removeGraphQLDocumentsFor
  simp [h]

theorem removeGraphQLDocumentsFor_documentsByFile_of_present (uri : DocumentUri)
    (s : ProjState) (h : (mapGet uri s.documentsByFile).isSome = true) :
    (removeGraphQLDocumentsFor uri s).documentsByFile =
      mapDelete uri s.documentsByFile := by
  simp only [removeGraphQLDocumentsFor, h, if_true]
  split <;> simp

/-! ### Step-level lemmas about readiness and promise settlement -/

@[simp]
theorem initRejectCont_isReady (s : ProjState) :
    (initRejectCont s).isReady = s.isReady := by
  unfold initRejectCont; split <;> rfl

theorem step_isReady_of_true (e : Event) (s : ProjState) (h : s.isReady = true) :
    (step e s).isReady = true := by
  cases e
  case initResolve =>
    simp only [step]
    unfold initResolveCont
    split
    · exact h
    · simp
  all_goals simpa [step, fileWasDeleted] using h

theorem step_isReady_flip (e : Event) (s : ProjState) (h1 : s.isReady = false)
    (h2 : (step e s).isReady = true) : e = Event.initResolve ∧ s.initSettled = false := by
  cases e
  case initResolve =>
    refine ⟨rfl, ?_⟩
    by_cases hs : s.initSettled = true
    · exfalso
      simp only [step] at h2
      unfold initResolveCont at h2
      rw [if_pos hs, h1] at h2
      exact Bool.false_ne_true h2
    · simpa using hs
  all_goals simp [step, fileWasDeleted, h1] at h2

theorem step_initSettled_of_true (e : Event) (s : ProjState) (h : s.initSettled = true) :
    (step e s).initSettled = true := by
  cases e
  case initResolve =>
    simp only [step]
    unfold initResolveCont
    rw [if_pos h]
    exact h
  case initReject =>
    simp only [step]
    unfold initRejectCont
    rw [if_pos h]
    exact h
  all_goals simpa [step, fileWasDeleted] using h

theorem step_isReady_of_settled_not_ready (e : Event) (s : ProjState)
    (h1 : s.initSettled = true) (h2 : s.isReady = false) : (step e s).isReady = false := by
  cases e
  case initResolve =>
    simp only [step]
    unfold initResolveCont
    rw [if_pos h1]
    exact h2
  all_goals simpa [step, fileWasDeleted] using h2

theorem notReady_forever (tr : List Event) :
    ∀ s : ProjState, s.initSettled = true → s.isReady = false →
      (runEvents tr s).isReady = false ∧ (runEvents tr s).initSettled = true := by
  induction tr with
  | nil => exact fun s h1 h2 => ⟨h2, h1⟩
  | cons e rest ih =>
    intro s h1 h2
    simpa [runEvents] using
      ih (step e s) (step_initSettled_of_true e s h1) (step_isReady_of_settled_not_ready e s h1 h2)

theorem step_whenReady_ne_false (e : Event) (s : ProjState)
    (h : s.whenReadySettled ≠ some false) : (step e s).whenReadySettled ≠ some false := by
  cases e
  case initResolve =>
    simp only [step]
    unfold initResolveCont
    split
    · exact h
    · simp
  case initReject =>
    simp only [step]
    unfold initRejectCont
    split
    · exact h
    · simp
  all_goals simpa [step, fileWasDeleted] using h

theorem runEvents_whenReady_ne_false (tr : List Event) :
    ∀ s : ProjState, s.whenReadySettled ≠ some false →
      (runEvents tr s).whenReadySettled ≠ some false := by
  induction tr with
  | nil => exact fun s h => h
  | cons e rest ih =>
    intro s h
    simpa [runEvents] using ih (step e s) (step_whenReady_ne_false e s h)

theorem initRejectCont_of_unsettled (s : ProjState) (h : s.initSettled = false) :
    initRejectCont s =
      { s with initSettled := true
               errorsLogged := s.errorsLogged + 1
               errorsShown := s.errorsShown + 1
               whenReadySettled := some true } := by
  unfold initRejectCont
  simp [h]

/-! ### Trace lemmas -/

theorem runEvents_append (l1 l2 : List Event) (s : ProjState) :
    runEvents (l1 ++ l2) s = runEvents l2 (runEvents l1 s) := by
  induction l1 generalizing s with
  | nil => rfl
  | cons e rest ih => simp [runEvents, ih]

theorem runEvents_replicate_invalidate_of_fix (n : Nat) (s : ProjState)
    (h : invalidate s = s) :
    runEvents (List.replicate n Event.invalidate) s = s := by
  induction n with
  | zero => rfl
  | succ k ih => simpa [List.replicate_succ, runEvents, step, h] using ih

/-- First-match characterization of `List.find?`: if the element at index
`i` satisfies the predicate and every earlier index does not, `find?`
returns exactly that element. -/
theorem find_first {α : Type} (p : α → Bool) (l : List α) :
    ∀ i (hi : i < l.length), p (l.get ⟨i, hi⟩) = true →
      (∀ j (hj : j < l.length), j < i → p (l.get ⟨j, hj⟩) = false) →
      l.find? p = some (l.get ⟨i, hi⟩) := by
  induction l with
  | nil => intro i hi; exact absurd hi (by simp)
  | cons a tl ih =>
    intro i hi hp hb
    cases i with
    | zero =>
      simp only [List.get] at hp ⊢
      simp [List.find?, hp]
    | succ i' =>
      have ha : p a = false := by
        simpa using hb 0 (by simp) (Nat.succ_pos i')
      have hi' : i' < tl.length := by simpa using hi
      have hp' : p (tl.get ⟨i', hi'⟩) = true := by simpa using hp
      have hb' : ∀ j (hj : j < tl.length), j < i' → p (tl.get ⟨j, hj⟩) = false := by
        intro j hj hlt
        simpa using hb (j + 1) (by simpa using Nat.succ_lt_succ hj) (Nat.succ_lt_succ hlt)
      have hrec := ih i' hi' hp' hb'
      simp only [List.get]
      simp [List.find?, ha, hrec]

/-! ### Claims -/

/-- Claim C3, counterexample to the claim as stated: at a state where
readiness is false (here the freshly constructed state), a call to
`invalidate()` does NOT set `needsValidation` to true — the guard
`!this.needsValidation && this.isReady` is false, so the whole body is
skipped and the flag stays false. -/
theorem invalidate_not_ready_cex :
    initialState.isReady = false ∧
    ¬ (invalidate initialState).needsValidation = true := by decide

/-- Claim C3 (amended): for every call to `invalidate()` made while
readiness is false, the call is a complete no-op: it leaves the
pending-validation flag (and every other field) unchanged and schedules
no validation work. -/
theorem invalidate_not_ready_noop (s : ProjState) (h : s.isReady = false) :
    invalidate s = s :=
  invalidate_of_not_ready s h

/-- Witness for the amended claim C3 at the initial state. -/
theorem invalidate_not_ready_noop_witness :
    initialState.isReady = false ∧ invalidate initialState = initialState :=
  ⟨rfl, invalidate_not_ready_noop initialState rfl⟩

/-- Claim C4, counterexample to the claim as stated: when the scheduled
validation turn runs with the pending flag true and readiness true but
the abstract `validate()` hook throws, the flag is NOT cleared — the
exception propagates out of `validateIfNeeded` before the
`this.needsValidation = false` statement on base.ts line 211 executes. -/
theorem validateIfNeeded_throw_keeps_flag_cex :
    ({ initialState with needsValidation := true, isReady := true } : ProjState).needsValidation
        = true ∧
    ({ initialState with needsValidation := true, isReady := true } : ProjState).isReady = true ∧
    ¬ (validateIfNeeded true
        { initialState with needsValidation := true, isReady := true }).needsValidation
        = false := by decide

/-- Claim C4 (amended): whenever the scheduled validation turn runs with
the pending-validation flag true and readiness true, the `validate()` hook
is invoked; the flag is cleared when `validate()` returns normally, but
when `validate()` throws the flag remains true (the clearing statement is
skipped), so a throwing hook leaves the scheduler unable to re-trigger. -/
theorem validateIfNeeded_clears_flag_on_normal_return (t : Bool) (s : ProjState)
    (hflag : s.needsValidation = true) (hready : s.isReady = true) :
    (validateIfNeeded t s).validateRuns = s.validateRuns + 1 ∧
    (validateIfNeeded false s).needsValidation = false ∧
    (validateIfNeeded true s).needsValidation = true := by
  refine ⟨?_, ?_, ?_⟩
  · cases t <;> simp [validateIfNeeded, hflag, hready]
  · simp [validateIfNeeded, hflag, hready]
  · simp [validateIfNeeded, hflag, hready]

/-- Witness for the amended claim C4 at a concrete pending, ready state. -/
theorem validateIfNeeded_clears_flag_on_normal_return_witness :
    (validateIfNeeded false
        { initialState with needsValidation := true, isReady := true }).validateRuns
      = ({ initialState with needsValidation := true, isReady := true } : ProjState).validateRuns
          + 1 ∧
    (validateIfNeeded false
        { initialState with needsValidation := true, isReady := true }).needsValidation
      = false :=
  ⟨(validateIfNeeded_clears_flag_on_normal_return false
      { initialState with needsValidation := true, isReady := true } rfl rfl).1,
   (validateIfNeeded_clears_flag_on_normal_return false
      { initialState with needsValidation := true, isReady := true } rfl rfl).2.1⟩

/-- Claim C2: `documentDidChange` preserves the Document Index invariant
(every present key maps to a non-empty document list), and an empty
extraction result (`none`, the falsy value the extractor returns when no
documents are found) removes the key instead of storing an empty list.
The hypothesis `hex` is the spec-modelled contract of the external
extractor: an extraction with no documents is signalled as `none`, never
as `some []`. -/
theorem documentDidChange_preserves_index_invariant
    (uri : DocumentUri) (documents : Option (List GraphQLDocument)) (s : ProjState)
    (hinv : indexInvariant s)
    (hex : ∀ ds, documents = some ds → ds ≠ []) :
    indexInvariant (documentDidChange uri documents s) ∧
    (documents = none →
      mapGet uri (documentDidChange uri documents s).documentsByFile = none) := by
  cases documents with
  | some ds =>
    refine ⟨?_, ?_⟩
    · intro u ds' hget
      simp only [documentDidChange, invalidate_documentsByFile] at hget
      by_cases hu : u = uri
      · subst hu
        rw [mapGet_mapSet_self] at hget
        cases hget
        exact hex ds rfl
      · rw [mapGet_mapSet_ne uri u ds s.documentsByFile hu] at hget
        exact hinv u ds' hget
    · intro hnone
      cases hnone
  | none =>
    by_cases h : mapGet uri s.documentsByFile = none
    · refine ⟨?_, ?_⟩
      · intro u ds' hget
        simp only [documentDidChange] at hget
        rw [removeGraphQLDocumentsFor_of_absent uri s h] at hget
        exact hinv u ds' hget
      · intro _
        simp only [documentDidChange]
        rw [removeGraphQLDocumentsFor_of_absent uri s h]
        exact h
    · have hsome : (mapGet uri s.documentsByFile).isSome = true :=
        Option.ne_none_iff_isSome.mp h
      refine ⟨?_, ?_⟩
      · intro u ds' hget
        simp only [documentDidChange] at hget
        rw [removeGraphQLDocumentsFor_documentsByFile_of_present uri s hsome] at hget
        by_cases hu : u = uri
        · subst hu
          rw [mapGet_mapDelete_self] at hget
          cases hget
        · rw [mapGet_mapDelete_ne uri u s.documentsByFile hu] at hget
          exact hinv u ds' hget
      · intro _
        simp only [documentDidChange]
        rw [removeGraphQLDocumentsFor_documentsByFile_of_present uri s hsome]
        exact mapGet_mapDelete_self uri s.documentsByFile

/-- Witness for claim C2: a non-empty extraction on the fresh state keeps
the invariant, and an empty (`none`) extraction on a state holding the
file removes its key. -/
theorem documentDidChange_preserves_index_invariant_witness :
    indexInvariant (documentDidChange "file:a.graphql"
      (some [GraphQLDocument.mk (Range.mk (Position.mk 0 0) (Position.mk 1 0))])
      initialState) ∧
    mapGet "file:a.graphql"
      (documentDidChange "file:a.graphql" none
        { initialState with documentsByFile :=
            [("file:a.graphql",
              [GraphQLDocument.mk (Range.mk (Position.mk 0 0) (Position.mk 1 0))])] }
        ).documentsByFile = none :=
  ⟨(documentDidChange_preserves_index_invariant "file:a.graphql"
      (some [GraphQLDocument.mk (Range.mk (Position.mk 0 0) (Position.mk 1 0))])
      initialState
      (fun u ds h => by simp [initialState, mapGet] at h)
      (fun ds h => by cases h; simp)).1,
   (documentDidChange_preserves_index_invariant "file:a.graphql" none
      { initialState with documentsByFile :=
          [("file:a.graphql",
            [GraphQLDocument.mk (Range.mk (Position.mk 0 0) (Position.mk 1 0))])] }
      (fun u ds h => by
        simp only [mapGet] at h
        split at h
        · cases h; simp
        · simp [mapGet] at h)
      (fun ds h => by cases h)).2 rfl⟩

/-- Claim C6: `fileDidChange` resolves the language from the fixed
association table, whose supported extensions are exactly `.graphql`,
`.js`, `.ts`, `.jsx`, `.tsx`; an unsupported extension is a complete
no-op (the state is returned unchanged: no index mutation, no error log,
no diagnostics, no invalidation), and a supported extension whose read
throws only logs the error (every other field unchanged, no exception
propagated since the method is total). -/
theorem fileDidChange_unsupported_and_read_failure :
    (∀ extension : String, (fileAssociations extension).isSome = true ↔
        extension ∈ ([".graphql", ".js", ".ts", ".jsx", ".tsx"] : List String)) ∧
    (∀ (uri : DocumentUri) (extension : String) (readResult : Option String)
        (extractOf : String → Option (List GraphQLDocument)) (s : ProjState),
        fileAssociations extension = none →
        fileDidChange uri extension readResult extractOf s = s) ∧
    (∀ (uri : DocumentUri) (extension languageId : String)
        (extractOf : String → Option (List GraphQLDocument)) (s : ProjState),
        fileAssociations extension = some languageId →
        fileDidChange uri extension none extractOf s =
          { s with errorsLogged := s.errorsLogged + 1 }) := by
  refine ⟨?_, ?_, ?_⟩
  · intro extension
    unfold fileAssociations
    split_ifs with h1 h2 h3 h4 h5 <;> simp_all
  · intro uri extension readResult extractOf s h
    simp only [fileDidChange, h]
  · intro uri extension languageId extractOf s h
    simp only [fileDidChange, h]

/-- Witness for claim C6: an unsupported `.md` file is a no-op; a
supported `.graphql` file whose read fails only increments the error
log. -/
theorem fileDidChange_unsupported_and_read_failure_witness :
    fileDidChange "file:a.md" ".md" none (fun _ => none) initialState = initialState ∧
    fileDidChange "file:a.graphql" ".graphql" none (fun _ => none) initialState =
      { initialState with errorsLogged := initialState.errorsLogged + 1 } :=
  ⟨fileDidChange_unsupported_and_read_failure.2.1 "file:a.md" ".md" none
      (fun _ => none) initialState (by decide),
   fileDidChange_unsupported_and_read_failure.2.2 "file:a.graphql" ".graphql" "graphql"
      (fun _ => none) initialState (by decide)⟩

/-- Claim C7: `removeGraphQLDocumentsFor` (and hence `fileWasDeleted`) on
a file with no entry in the document index is a complete no-op — the
returned state equals the input state, so the index is unchanged, no
diagnostics event is published and `invalidate()` has no effect — and
removal is idempotent. -/
theorem removeGraphQLDocuments_absent_noop_idempotent :
    (∀ (uri : DocumentUri) (s : ProjState), mapGet uri s.documentsByFile = none →
        removeGraphQLDocumentsFor uri s = s ∧ fileWasDeleted uri s = s) ∧
    (∀ (uri : DocumentUri) (s : ProjState),
        removeGraphQLDocumentsFor uri (removeGraphQLDocumentsFor uri s) =
          removeGraphQLDocumentsFor uri s) := by
  constructor
  · intro uri s h
    have h1 := removeGraphQLDocumentsFor_of_absent uri s h
    exact ⟨h1, by unfold fileWasDeleted; exact h1⟩
  · intro uri s
    by_cases h : mapGet uri s.documentsByFile = none
    · rw [removeGraphQLDocumentsFor_of_absent uri s h,
        removeGraphQLDocumentsFor_of_absent uri s h]
    · have hsome : (mapGet uri s.documentsByFile).isSome = true :=
        Option.ne_none_iff_isSome.mp h
      apply removeGraphQLDocumentsFor_of_absent
      rw [removeGraphQLDocumentsFor_documentsByFile_of_present uri s hsome]
      exact mapGet_mapDelete_self uri s.documentsByFile

/-- Witness for claim C7 at the fresh state, whose index has no entry. -/
theorem removeGraphQLDocuments_absent_noop_idempotent_witness :
    removeGraphQLDocumentsFor "file:a.graphql" initialState = initialState ∧
    fileWasDeleted "file:a.graphql" initialState = initialState :=
  removeGraphQLDocuments_absent_noop_idempotent.1 "file:a.graphql" initialState (by decide)

/-- Claim C8: `documentAt(uri, position)` returns the first document, in
stored insertion order, of the file's entry whose range contains the
position; it returns `none` when the file has no entry or when no stored
document contains the position. -/
theorem documentAt_first_match (s : ProjState) (uri : DocumentUri) (pos : Position) :
    (mapGet uri s.documentsByFile = none → documentAt uri pos s = none) ∧
    (∀ ds, mapGet uri s.documentsByFile = some ds →
      ((∀ d ∈ ds, d.containsPosition pos = false) → documentAt uri pos s = none) ∧
      (∀ i (hi : i < ds.length), (ds.get ⟨i, hi⟩).containsPosition pos = true →
        (∀ j (hj : j < ds.length), j < i → (ds.get ⟨j, hj⟩).containsPosition pos = false) →
        documentAt uri pos s = some (ds.get ⟨i, hi⟩))) := by
  constructor
  · intro h
    simp only [documentAt, h]
  · intro ds h
    constructor
    · intro hall
      simp only [documentAt, h]
      exact List.find?_eq_none.mpr (fun d hd => by simp [hall d hd])
    · intro i hi hp hb
      simp only [documentAt, h]
      exact find_first _ ds i hi hp hb

/-- Witness for claim C8: with two stored documents, a position inside
the second (and not the first) returns the second document. -/
theorem documentAt_first_match_witness :
    documentAt "file:a.graphql" (Position.mk 2 0)
      { initialState with documentsByFile :=
          [("file:a.graphql",
            [GraphQLDocument.mk (Range.mk (Position.mk 0 0) (Position.mk 1 0)),
             GraphQLDocument.mk (Range.mk (Position.mk 2 0) (Position.mk 3 0))])] }
      = some (GraphQLDocument.mk (Range.mk (Position.mk 2 0) (Position.mk 3 0))) :=
  (documentAt_first_match
    { initialState with documentsByFile :=
        [("file:a.graphql",
          [GraphQLDocument.mk (Range.mk (Position.mk 0 0) (Position.mk 1 0)),
           GraphQLDocument.mk (Range.mk (Position.mk 2 0) (Position.mk 3 0))])] }
    "file:a.graphql" (Position.mk 2 0)).2
    [GraphQLDocument.mk (Range.mk (Position.mk 0 0) (Position.mk 1 0)),
     GraphQLDocument.mk (Range.mk (Position.mk 2 0) (Position.mk 3 0))]
    (by decide) |>.2 1 (by decide) (by decide) (by decide)

/-- Decomposition of a scan over a concatenated enumeration: the second
half continues from the state the first half produced, and the invocation
logs concatenate. -/
theorem scanAllIncludedFiles_append (uriOf extOf : String → String)
    (readOf : String → Option String)
    (extractOf : String → String → Option (List GraphQLDocument))
    (l1 l2 : List String) (s : ProjState) :
    scanAllIncludedFiles uriOf extOf readOf extractOf (l1 ++ l2) s =
      ((scanAllIncludedFiles uriOf extOf readOf extractOf l2
          (scanAllIncludedFiles uriOf extOf readOf extractOf l1 s).1).1,
       (scanAllIncludedFiles uriOf extOf readOf extractOf l1 s).2 ++
         (scanAllIncludedFiles uriOf extOf readOf extractOf l2
           (scanAllIncludedFiles uriOf extOf readOf extractOf l1 s).1).2) := by
  induction l1 generalizing s with
  | nil => simp [scanAllIncludedFiles]
  | cons f rest ih =>
    by_cases h : (mapGet (uriOf f) s.documentsByFile).isSome = true
    · simp only [List.cons_append, scanAllIncludedFiles, h, if_true]
      exact ih s
    · simp only [List.cons_append, scanAllIncludedFiles, h, Bool.false_eq_true, if_false]
      simp only [List.append_eq]
      rw [ih]

/-- Claim C1: within one synchronous burst of `invalidate()` calls — with
no scheduled turn running in between, whether the calls land before or
after readiness — exactly one invocation of the abstract `validate()`
hook occurs once readiness is true: never zero (the constructor
continuation itself calls `invalidate()` on becoming ready, and the first
ready call schedules a timer), and never more than one (later calls see
`needsValidation` already true, and the single timer turn leaves no timer
pending and the flag clear). -/
theorem invalidate_burst_validates_exactly_once (k m n : Nat)
    (_hkm : 1 ≤ k + m) (hn : 1 ≤ n) (s : ProjState) (hready : s.isReady = true)
    (hflag : s.needsValidation = false) (htimer : s.scheduledTimers = 0) :
    ((runEvents (burstAroundInit k m) initialState).validateRuns = 1 ∧
      (runEvents (burstAroundInit k m) initialState).needsValidation = false ∧
      (runEvents (burstAroundInit k m) initialState).scheduledTimers = 0) ∧
    ((runEvents (burstWhenReady n) s).validateRuns = s.validateRuns + 1 ∧
      (runEvents (burstWhenReady n) s).needsValidation = false ∧
      (runEvents (burstWhenReady n) s).scheduledTimers = 0) := by
  constructor
  · have hk : runEvents (List.replicate k Event.invalidate) initialState = initialState :=
      runEvents_replicate_invalidate_of_fix k initialState
        (invalidate_of_not_ready initialState rfl)
    have hm : runEvents (List.replicate m Event.invalidate)
        (step Event.initResolve initialState) = step Event.initResolve initialState :=
      runEvents_replicate_invalidate_of_fix m _ (invalidate_of_pending _ (by decide))
    have htrace : runEvents (burstAroundInit k m) initialState =
        step (Event.timerFire false) (step Event.initResolve initialState) := by
      unfold burstAroundInit
      rw [runEvents_append, hk]
      simp only [runEvents]
      rw [runEvents_append, hm]
      simp only [runEvents]
    rw [htrace]
    decide
  · obtain ⟨p, rfl⟩ : ∃ p, n = p + 1 := ⟨n - 1, by omega⟩
    have hstep1 : step Event.invalidate s =
        { s with scheduledTimers := s.scheduledTimers + 1, needsValidation := true } := by
      simp only [step]
      exact invalidate_of_quiescent s hready hflag
    have hp : runEvents (List.replicate p Event.invalidate)
        { s with scheduledTimers := s.scheduledTimers + 1, needsValidation := true } =
        { s with scheduledTimers := s.scheduledTimers + 1, needsValidation := true } :=
      runEvents_replicate_invalidate_of_fix p _ (invalidate_of_pending _ rfl)
    have htrace : runEvents (burstWhenReady (p + 1)) s =
        step (Event.timerFire false)
          { s with scheduledTimers := s.scheduledTimers + 1, needsValidation := true } := by
      unfold burstWhenReady
      rw [List.replicate_succ]
      simp only [List.cons_append, runEvents]
      rw [hstep1]
      simp only [List.append_eq]
      rw [runEvents_append, hp]
      simp only [runEvents]
    rw [htrace]
    refine ⟨?_, ?_, ?_⟩ <;> simp [step, timerFire, validateIfNeeded, hready, htimer]

/-- Witness for claim C1: a burst of two calls before readiness plus one
after, and a ready-state burst of three calls, each produce exactly one
validation. -/
theorem invalidate_burst_validates_exactly_once_witness :
    (runEvents (burstAroundInit 2 1) initialState).validateRuns = 1 ∧
    (runEvents (burstWhenReady 3) { initialState with isReady := true }).validateRuns =
      ({ initialState with isReady := true } : ProjState).validateRuns + 1 :=
  ⟨(invalidate_burst_validates_exactly_once 2 1 3 (by decide) (by decide)
      { initialState with isReady := true } rfl rfl rfl).1.1,
   (invalidate_burst_validates_exactly_once 2 1 3 (by decide) (by decide)
      { initialState with isReady := true } rfl rfl rfl).2.1⟩

/-- Claim C5: the readiness flag starts false at construction, can only
flip from false to true when the initialization promise resolves (and
only while it had not yet settled, hence at most once), is never reset to
false by any event, and on an initialization failure it stays false
forever while the error is both logged (`console.error`) and shown
through the loading handler. -/
theorem isReady_monotone_once_and_failure_surfaced :
    initialState.isReady = false ∧
    (∀ (e : Event) (s : ProjState), s.isReady = true → (step e s).isReady = true) ∧
    (∀ (e : Event) (s : ProjState), s.isReady = false → (step e s).isReady = true →
      e = Event.initResolve ∧ s.initSettled = false) ∧
    (∀ s : ProjState, s.initSettled = false →
      (step Event.initReject s).isReady = s.isReady ∧
      (step Event.initReject s).errorsLogged = s.errorsLogged + 1 ∧
      (step Event.initReject s).errorsShown = s.errorsShown + 1) ∧
    (∀ (s : ProjState) (tr : List Event), s.initSettled = true → s.isReady = false →
      (runEvents tr s).isReady = false) := by
  refine ⟨rfl, step_isReady_of_true, step_isReady_flip, ?_, ?_⟩
  · intro s h
    simp only [step]
    rw [initRejectCont_of_unsettled s h]
    exact ⟨rfl, rfl, rfl⟩
  · intro s tr h1 h2
    exact (notReady_forever tr s h1 h2).1

/-- Witness for claim C5: readiness is preserved by a ready-state call,
a failed initialization bumps the error surface, and after a failure no
later event makes the project ready. -/
theorem isReady_monotone_once_and_failure_surfaced_witness :
    (step Event.invalidate { initialState with isReady := true }).isReady = true ∧
    (step Event.initReject initialState).errorsShown = initialState.errorsShown + 1 ∧
    (runEvents [Event.initResolve, Event.invalidate]
      { initialState with initSettled := true }).isReady = false :=
  ⟨isReady_monotone_once_and_failure_surfaced.2.1 Event.invalidate
      { initialState with isReady := true } rfl,
   (isReady_monotone_once_and_failure_surfaced.2.2.2.1 initialState rfl).2.2,
   isReady_monotone_once_and_failure_surfaced.2.2.2.2
      { initialState with initSettled := true } [Event.initResolve, Event.invalidate] rfl rfl⟩

/-- Claim C9: during `scanAllIncludedFiles`, when the scan reaches an
enumerated file whose uri already has an entry in the document index at
that moment, `fileDidChange` is not invoked for it (the scan state passes
through unchanged and its uri does not enter the invocation log);
otherwise `fileDidChange` is invoked for it at exactly that point. -/
theorem scanAllIncludedFiles_skips_indexed (uriOf extOf : String → String)
    (readOf : String → Option String)
    (extractOf : String → String → Option (List GraphQLDocument))
    (pre : List String) (filePath : String) (post : List String) (s sMid : ProjState)
    (hmid : sMid = (scanAllIncludedFiles uriOf extOf readOf extractOf pre s).1) :
    ((mapGet (uriOf filePath) sMid.documentsByFile).isSome = true →
      scanAllIncludedFiles uriOf extOf readOf extractOf (pre ++ filePath :: post) s =
        ((scanAllIncludedFiles uriOf extOf readOf extractOf post sMid).1,
         (scanAllIncludedFiles uriOf extOf readOf extractOf pre s).2 ++
           (scanAllIncludedFiles uriOf extOf readOf extractOf post sMid).2)) ∧
    ((mapGet (uriOf filePath) sMid.documentsByFile).isSome = false →
      scanAllIncludedFiles uriOf extOf readOf extractOf (pre ++ filePath :: post) s =
        ((scanAllIncludedFiles uriOf extOf readOf extractOf post
            (fileDidChange (uriOf filePath) (extOf filePath) (readOf filePath)
              (extractOf filePath) sMid)).1,
         (scanAllIncludedFiles uriOf extOf readOf extractOf pre s).2 ++
           uriOf filePath ::
             (scanAllIncludedFiles uriOf extOf readOf extractOf post
               (fileDidChange (uriOf filePath) (extOf filePath) (readOf filePath)
                 (extractOf filePath) sMid)).2)) := by
  subst hmid
  constructor
  · intro h
    rw [scanAllIncludedFiles_append]
    simp only [scanAllIncludedFiles, h, if_true]
  · intro h
    rw [scanAllIncludedFiles_append]
    simp only [scanAllIncludedFiles, h, Bool.false_eq_true, if_false]

/-- Witness for claim C9: a file already present in the index when the
scan reaches it is skipped. -/
theorem scanAllIncludedFiles_skips_indexed_witness :
    scanAllIncludedFiles (fun p => p) (fun _ => ".md") (fun _ => none) (fun _ _ => none)
      ([] ++ "a" :: [])
      { initialState with documentsByFile :=
          [("a", [GraphQLDocument.mk (Range.mk (Position.mk 0 0) (Position.mk 1 0))])] } =
      ((scanAllIncludedFiles (fun p => p) (fun _ => ".md") (fun _ => none) (fun _ _ => none)
          []
          (scanAllIncludedFiles (fun p => p) (fun _ => ".md") (fun _ => none)
            (fun _ _ => none) []
            { initialState with documentsByFile :=
                [("a",
                  [GraphQLDocument.mk (Range.mk (Position.mk 0 0) (Position.mk 1 0))])] }).1).1,
       (scanAllIncludedFiles (fun p => p) (fun _ => ".md") (fun _ => none) (fun _ _ => none)
          []
          { initialState with documentsByFile :=
              [("a",
                [GraphQLDocument.mk (Range.mk (Position.mk 0 0) (Position.mk 1 0))])] }).2 ++
         (scanAllIncludedFiles (fun p => p) (fun _ => ".md") (fun _ => none) (fun _ _ => none)
            []
            (scanAllIncludedFiles (fun p => p) (fun _ => ".md") (fun _ => none)
              (fun _ _ => none) []
              { initialState with documentsByFile :=
                  [("a",
                    [GraphQLDocument.mk (Range.mk (Position.mk 0 0) (Position.mk 1 0))])] }).1).2) :=
  (scanAllIncludedFiles_skips_indexed (fun p => p) (fun _ => ".md") (fun _ => none)
    (fun _ _ => none) [] "a" []
    { initialState with documentsByFile :=
        [("a", [GraphQLDocument.mk (Range.mk (Position.mk 0 0) (Position.mk 1 0))])] }
    _ rfl).1 (by decide)

/-- Claim C10: the `whenReady` promise never rejects — starting from
construction, no event sequence can leave `readyPromise` rejected,
because the constructor's `catch` handler absorbs an initialization
failure (logging it and showing it through the loading handler) and
returns normally, fulfilling the promise; after such a failure `isReady`
remains permanently false, so awaiting `whenReady` distinguishes success
from failure only through `isReady`. -/
theorem whenReady_never_rejects :
    (∀ tr : List Event, (runEvents tr initialState).whenReadySettled ≠ some false) ∧
    (∀ s : ProjState, s.initSettled = false →
      (step Event.initReject s).whenReadySettled = some true ∧
      (step Event.initReject s).errorsLogged = s.errorsLogged + 1 ∧
      (step Event.initReject s).errorsShown = s.errorsShown + 1 ∧
      (step Event.initReject s).isReady = s.isReady) ∧
    (∀ (s : ProjState) (tr : List Event), s.initSettled = true → s.isReady = false →
      (runEvents tr s).isReady = false) := by
  refine ⟨?_, ?_, ?_⟩
  · intro tr
    exact runEvents_whenReady_ne_false tr initialState (by simp [initialState])
  · intro s h
    simp only [step]
    rw [initRejectCont_of_unsettled s h]
    exact ⟨rfl, rfl, rfl, rfl⟩
  · intro s tr h1 h2
    exact (notReady_forever tr s h1 h2).1

/-- Witness for claim C10: after a failed initialization, the promise is
fulfilled (not rejected) and readiness stays false. -/
theorem whenReady_never_rejects_witness :
    (runEvents [Event.initReject, Event.initResolve] initialState).whenReadySettled
      ≠ some false ∧
    (step Event.initReject initialState).whenReadySettled = some true :=
  ⟨whenReady_never_rejects.1 [Event.initReject, Event.initResolve],
   (whenReady_never_rejects.2.1 initialState rfl).1⟩

end ApolloProject
